import Mathlib

/-!
Verification development for the Mindspire Gmail sync and reply
reconciliation engine (Supabase edge functions, TypeScript).  The
TypeScript sources are shallowly embedded as pure Lean functions:
JavaScript objects and `Map`s become insertion-ordered association
lists, JavaScript `Set`s become duplicate-free lists in insertion
order, thrown exceptions become `Option`/`Except` values, and the
database becomes an explicit list of rows threaded through each
operation.
-/

namespace Mindspire

/-! ## JavaScript collection primitives

`alistFind` models `obj[key]` / `Map.get` (first binding wins; the
builders below keep keys unique).  `alistSet` models `obj[key] = v` /
`Map.set`: overwrite in place, else append, preserving insertion
order.  `setAdd`/`setFromList` model `Set.add` / `new Set(array)`:
insertion order, duplicates dropped.  `jsTruthy` models JavaScript
truthiness of a string-or-undefined value (`undefined` and `""` are
falsy). -/

def alistFind (m : List (String × String)) (k : String) : Option String :=
  (m.find? (fun p => p.1 == k)).map (·.2)

def alistSet (m : List (String × String)) (k v : String) : List (String × String) :=
  match m with
  | [] => [(k, v)]
  | (k', v') :: rest =>
    if k' == k then (k, v) :: rest else (k', v') :: alistSet rest k v

def setAdd (s : List String) (x : String) : List String :=
  if x ∈ s then s else s ++ [x]

def setAddAll (s : List String) (xs : List String) : List String :=
  xs.foldl setAdd s

def setFromList (xs : List String) : List String :=
  setAddAll [] xs

def setDelete (s : List String) (x : String) : List String :=
  s.filter (fun y => y != x)

def jsTruthy (o : Option String) : Bool :=
  match o with
  | none => false
  | some s => s != ""

def isJsSpace (c : Char) : Bool :=
  c = ' ' || c = '\t' || c = '\n' || c = '\r' || c = '\x0b' || c = '\x0c'

/-- JavaScript `String.prototype.trim` over the code points (kernel-reducible,
unlike `String.trim`). -/
def jsTrim (s : String) : String :=
  String.mk (((s.data.dropWhile isJsSpace).reverse.dropWhile isJsSpace).reverse)

/-- `String.prototype.toUpperCase` for the ASCII range. -/
def upperString (s : String) : String :=
  String.mk (s.data.map Char.toUpper)

/-- `String.prototype.toLowerCase` for the ASCII range. -/
def lowerString (s : String) : String :=
  String.mk (s.data.map Char.toLower)

/-! ## decodeBase64Url (poll_gmail/index.ts:125-139, _shared/gmail.ts:25-42)

The TypeScript function normalizes url-safe base64 (`-`→`+`, `_`→`/`),
pads with `=`, runs `atob` inside `try`, decodes the bytes with
`TextDecoder("utf-8")`, and returns `""` for a falsy input or when the
`try` block throws.  `atob` implements WHATWG forgiving-base64 decode
and is the only throwing step: `TextDecoder` in its default non-fatal
mode replaces malformed UTF-8 with U+FFFD and never throws, which the
lossy decoder below mirrors.  A failed `atob` is `none` here. -/

def b64Normalize (s : String) : String :=
  String.mk (s.data.map (fun c => if c = '-' then '+' else if c = '_' then '/' else c))

def b64Pad (s : String) : String :=
  s ++ String.mk (List.replicate ((4 - s.length % 4) % 4) '=')

def isB64Ws (c : Char) : Bool :=
  c = '\t' || c = '\n' || c = '\x0c' || c = '\r' || c = ' '

def b64CharVal (c : Char) : Option Nat :=
  if 65 ≤ c.toNat ∧ c.toNat ≤ 90 then some (c.toNat - 65)
  else if 97 ≤ c.toNat ∧ c.toNat ≤ 122 then some (c.toNat - 97 + 26)
  else if 48 ≤ c.toNat ∧ c.toNat ≤ 57 then some (c.toNat - 48 + 52)
  else if c = '+' then some 62
  else if c = '/' then some 63
  else none

def b64DecodeChunks : List Nat → List Nat
  | a :: b :: c :: d :: rest =>
    (a * 4 + b / 16) :: ((b % 16) * 16 + c / 4) :: ((c % 4) * 64 + d) :: b64DecodeChunks rest
  | [a, b] => [a * 4 + b / 16]
  | [a, b, c] => [a * 4 + b / 16, (b % 16) * 16 + c / 4]
  | _ => []

def stripTrailingEq (l : List Char) : List Char :=
  match l.reverse with
  | '=' :: '=' :: rest => rest.reverse
  | '=' :: rest => rest.reverse
  | _ => l

def atobBytes (s : String) : Option (List Nat) :=
  let d0 := s.data.filter (fun c => !isB64Ws c)
  let d1 := if d0.length % 4 == 0 then stripTrailingEq d0 else d0
  if d1.length % 4 == 1 then none
  else (d1.mapM b64CharVal).map b64DecodeChunks

def utf8Cont (b : Nat) : Bool :=
  128 ≤ b && b < 192

def replChar : Char :=
  Char.ofNat 0xFFFD

def utf8Go : Nat → List Nat → List Char
  | 0, _ => []
  | _ + 1, [] => []
  | fuel + 1, b :: rest =>
    if b < 128 then Char.ofNat b :: utf8Go fuel rest
    else if 194 ≤ b ∧ b ≤ 223 then
      match rest with
      | b2 :: rest2 =>
        if utf8Cont b2 then
          Char.ofNat ((b - 192) * 64 + (b2 - 128)) :: utf8Go fuel rest2
        else replChar :: utf8Go fuel rest
      | [] => [replChar]
    else if 224 ≤ b ∧ b ≤ 239 then
      match rest with
      | b2 :: b3 :: rest3 =>
        if utf8Cont b2 && utf8Cont b3 then
          let cp := (b - 224) * 4096 + (b2 - 128) * 64 + (b3 - 128)
          if 2048 ≤ cp ∧ ¬ (55296 ≤ cp ∧ cp ≤ 57343) then
            Char.ofNat cp :: utf8Go fuel rest3
          else replChar :: utf8Go fuel rest
        else replChar :: utf8Go fuel rest
      | _ => replChar :: utf8Go fuel rest
    else if 240 ≤ b ∧ b ≤ 244 then
      match rest with
      | b2 :: b3 :: b4 :: rest4 =>
        if utf8Cont b2 && utf8Cont b3 && utf8Cont b4 then
          let cp := (b - 240) * 262144 + (b2 - 128) * 4096 + (b3 - 128) * 64 + (b4 - 128)
          if 65536 ≤ cp ∧ cp ≤ 1114111 then
            Char.ofNat cp :: utf8Go fuel rest4
          else replChar :: utf8Go fuel rest
        else replChar :: utf8Go fuel rest
      | _ => replChar :: utf8Go fuel rest
    else replChar :: utf8Go fuel rest

def utf8DecodeLossy (l : List Nat) : List Char :=
  utf8Go l.length l

def decodeBase64Url (input : Option String) : String :=
  match input with
  | none => ""
  | some s =>
    if s = "" then ""
    else
      let normalized := b64Normalize s
      let padded := b64Pad normalized
      match atobBytes padded with
      | none => ""
      | some bytes => String.mk (utf8DecodeLossy bytes)

/-! ## resolveInviteId (reply_preprocessor, src/unnamed/part_004:385-408)

Matcher chain over the reconstructed letter mapping.  JavaScript
regular expressions `/^[A-Za-z]$/` and the case-insensitive
`Invite`-then-whitespace-then-letter anchor pattern are embedded as
the explicit character-list matchers below. -/

def isAsciiLetterChar (c : Char) : Bool :=
  (65 ≤ c.toNat && c.toNat ≤ 90) || (97 ≤ c.toNat && c.toNat ≤ 122)

def singleLetterOf (s : String) : Option Char :=
  match s.data with
  | [c] => if isAsciiLetterChar c then some c else none
  | _ => none

def wsThenSingleLetter : List Char → Option Char
  | [] => none
  | c :: rest =>
    if isJsSpace c then
      match rest.dropWhile isJsSpace with
      | [d] => if isAsciiLetterChar d then some d else none
      | _ => none
    else none

def inviteWordMatch (s : String) : Option Char :=
  match s.data with
  | c1 :: c2 :: c3 :: c4 :: c5 :: c6 :: rest =>
    if [c1, c2, c3, c4, c5, c6].map Char.toLower = ['i', 'n', 'v', 'i', 't', 'e'] then
      wsThenSingleLetter rest
    else none
  | _ => none

def resolveInviteId (rawInviteId : String) (letterMap : List (String × String)) : String :=
  let trimmed := jsTrim rawInviteId
  if trimmed = "" then trimmed
  else
    let direct := alistFind letterMap (upperString trimmed)
    if jsTruthy direct then direct.getD ""
    else
      match singleLetterOf trimmed with
      | some c => (alistFind letterMap (String.mk [c.toUpper])).getD trimmed
      | none =>
        match inviteWordMatch trimmed with
        | some c => (alistFind letterMap (String.mk [c.toUpper])).getD trimmed
        | none => trimmed

/-! ## reconstructDigestContext (reply_preprocessor, src/unnamed/part_004:315-383)

`items` is `unknown` in TypeScript: `none` embeds the not-an-array
case; an array's entries are either objects (with optional string
`invite_id` and `summary` fields, and `stringified` standing for
`JSON.stringify(record)`) or primitives (`asString` standing for
`String(item)`). -/

inductive DigestItem where
  | obj (inviteId : Option String) (summary : Option String) (stringified : String)
  | prim (asString : String)
deriving DecidableEq, Repr

def normalizeStored (stored : List (String × String)) : List (String × String) :=
  stored.foldl
    (fun acc kv =>
      let key := upperString (jsTrim kv.1)
      let v := jsTrim kv.2
      if key != "" && v != "" then alistSet acc key v else acc)
    []

def letterOf (idx : Nat) : Char :=
  Char.ofNat (65 + idx)

def letterKeyOf (idx : Nat) : String :=
  upperString (String.mk [letterOf idx])

def inviteKeyOf (idx : Nat) : String :=
  "INVITE " ++ letterKeyOf idx

def itemOwnId : DigestItem → String
  | .obj rawId _ _ => jsTrim (rawId.getD "")
  | .prim _ => ""

def reconstructItems (stored : List (String × String)) :
    List DigestItem → Nat → List String → List (String × String) →
    List String × List (String × String)
  | [], _, lines, letterMap => (lines, letterMap)
  | item :: rest, idx, lines, letterMap =>
    let letter := letterOf idx
    let letterKey := letterKeyOf idx
    let inviteKey := inviteKeyOf idx
    match item with
    | .obj rawId summ json =>
      let rawInviteId := jsTrim (rawId.getD "")
      let storedInvite := ((alistFind stored letterKey).or (alistFind stored inviteKey)).getD ""
      let inviteId :=
        if rawInviteId != "" then rawInviteId
        else if storedInvite != "" then storedInvite
        else letterKey
      let summary := summ.getD json
      let lm := alistSet (alistSet letterMap letterKey inviteId) inviteKey inviteId
      reconstructItems stored rest (idx + 1)
        (lines ++ [String.mk [letter] ++ ". " ++ inviteId ++ ": " ++ summary]) lm
    | .prim strVal =>
      let storedInvite := ((alistFind stored letterKey).or (alistFind stored inviteKey)).getD letterKey
      let lm := alistSet (alistSet letterMap letterKey storedInvite) inviteKey storedInvite
      reconstructItems stored rest (idx + 1)
        (lines ++ [String.mk [letter] ++ ". " ++ strVal]) lm

def copyLeftover (letterMap stored : List (String × String)) : List (String × String) :=
  stored.foldl
    (fun acc kv => if jsTruthy (alistFind acc kv.1) then acc else alistSet acc kv.1 kv.2)
    letterMap

structure DigestContext where
  text : String
  letterToInviteId : List (String × String)
deriving DecidableEq, Repr

def reconstructDigestContext (items : Option (List DigestItem))
    (stored : List (String × String)) : DigestContext :=
  let ns := normalizeStored stored
  match items with
  | none =>
    { text := "", letterToInviteId := ns.foldl (fun acc kv => alistSet acc kv.1 kv.2) [] }
  | some list =>
    let res := reconstructItems ns list 0 [] []
    { text := String.intercalate "\n\n" res.1, letterToInviteId := copyLeftover res.2 ns }

/-- The invite id `reconstructItems` assigns to the item at position
`pos` (the `rawInviteId || storedInvite || letterKey` chain of the
object branch, and the stored-or-letter fallback of the primitive
branch).  Factored out to state what the letter mapping binds. -/
def itemValueAt (stored : List (String × String)) (pos : Nat) : DigestItem → String
  | .obj rawId _ _ =>
    if jsTrim (rawId.getD "") != "" then jsTrim (rawId.getD "")
    else if ((alistFind stored (letterKeyOf pos)).or (alistFind stored (inviteKeyOf pos))).getD "" != "" then
      ((alistFind stored (letterKeyOf pos)).or (alistFind stored (inviteKeyOf pos))).getD ""
    else letterKeyOf pos
  | .prim _ =>
    ((alistFind stored (letterKeyOf pos)).or (alistFind stored (inviteKeyOf pos))).getD
      (letterKeyOf pos)

/-! ## Invite pipeline (poll_gmail/index.ts:619-752, processUser message loop)

One iteration of the per-message loop, after message fetch and Gemini
extraction (both external collaborators whose results arrive in
`MessageCtx`): completeness gate, shared-recipient computation, dedup
on `gmail_message_id`, thread merge, insert.  The database is a list
of rows in insertion order; `maybeSingle()` without `order by` is
embedded as first-match (`List.find?`); row ids are generated fresh on
insert as the store would. -/

structure UserRec where
  id : String
  email : String
  partnerUserId : Option String
deriving DecidableEq, Repr

structure GeminiInvite where
  invite_id : String
  title : String
  summary : String
deriving DecidableEq, Repr

structure InviteRow where
  rowId : Nat
  userId : String
  gmailThreadId : String
  gmailMessageId : String
  sourceSubject : String
  parsed : GeminiInvite
  sharedUserIds : List String
  status : String
  notes : Option String := none
deriving DecidableEq, Repr

structure MessageCtx where
  messageId : String
  threadId : String
  emailText : String
  subject : String
  recipients : List String
  extraction : GeminiInvite
deriving DecidableEq, Repr

def computeShared (user : UserRec) (partner : Option UserRec)
    (recipients : List String) : List String :=
  let s :=
    match partner with
    | some p => if lowerString p.email ∈ recipients then setAdd [] p.id else []
    | none => []
  setDelete s user.id

def findByMessageId (db : List InviteRow) (mid : String) : Option InviteRow :=
  db.find? (fun r => r.gmailMessageId == mid)

def findByThreadId (db : List InviteRow) (tid : String) : Option InviteRow :=
  db.find? (fun r => r.gmailThreadId == tid)

def freshRowId (db : List InviteRow) : Nat :=
  (db.map (·.rowId)).foldr Nat.max 0 + 1

def updateSharedByRowId (db : List InviteRow) (rid : Nat) (shared : List String) :
    List InviteRow :=
  db.map (fun r => if r.rowId == rid then { r with sharedUserIds := shared } else r)

def mergeSharedSet (related : InviteRow) (userId : String) (shared : List String) :
    List String :=
  setAddAll
    (if related.userId != userId then setAdd (setFromList related.sharedUserIds) userId
     else setFromList related.sharedUserIds)
    shared

def mergeBranch (db : List InviteRow) (user : UserRec) (partner : Option UserRec)
    (msg : MessageCtx) (related : InviteRow) : List InviteRow :=
  if (mergeSharedSet related user.id (computeShared user partner msg.recipients)).length
      ≠ related.sharedUserIds.length then
    updateSharedByRowId db related.rowId
      (mergeSharedSet related user.id (computeShared user partner msg.recipients))
  else db

def newInviteRow (db : List InviteRow) (user : UserRec) (partner : Option UserRec)
    (msg : MessageCtx) : InviteRow :=
  { rowId := freshRowId db, userId := user.id,
    gmailThreadId := msg.threadId, gmailMessageId := msg.messageId,
    sourceSubject := msg.subject, parsed := msg.extraction,
    sharedUserIds := computeShared user partner msg.recipients, status := "pending" }

/-- The source computes `sharedUserIds` once before the store lookups;
being pure, that computation is inlined at its two use sites
(`mergeBranch`, `newInviteRow`) here. -/
def processMessage (db : List InviteRow) (user : UserRec) (partner : Option UserRec)
    (msg : MessageCtx) (dryRun : Bool) : List InviteRow :=
  if jsTrim msg.emailText = "" then db
  else if msg.extraction.invite_id = "" ∨ msg.extraction.title = "" ∨
      msg.extraction.summary = "" then db
  else if dryRun then db
  else
    match findByMessageId db msg.messageId with
    | some _ => db
    | none =>
      match findByThreadId db msg.threadId with
      | some related => mergeBranch db user partner msg related
      | none => db ++ [newInviteRow db user partner msg]

/-- Rows written by this engine always carry duplicate-free
`shared_user_ids` arrays and store-generated unique row ids. -/
def WellFormedDb (db : List InviteRow) : Prop :=
  (∀ r ∈ db, r.sharedUserIds.Nodup) ∧ (db.map (·.rowId)).Nodup

/-! ## Reply decision application (reply_processor/index.ts:22-26, 110-155)

The handler looks the invite up by owner and parsed `invite_id`, then
updates `status` and `notes` from the parsed reply with no guard on
the current status. -/

inductive Decision where
  | yes
  | no
  | maybe
deriving DecidableEq, Repr

def DecisionToStatus : Decision → String
  | .yes => "approved"
  | .no => "declined"
  | .maybe => "pending"

def applyReplyDecision (row : InviteRow) (d : Decision) (notes : Option String) :
    InviteRow :=
  { row with status := DecisionToStatus d, notes := notes }

/-! ## History paging and the cursor (poll_gmail/index.ts:521-552, 605-613, 754-767)

A pass consumes a provider script of page fetches.  `drainPages`
mirrors the do-while loop in `loadHistoryMessages`: accumulate message
references keyed by id, remember the last non-empty `historyId`, stop
when a page carries no `nextPageToken`.  A thrown fetch is `.error
status`; a script that runs out while a next-page token is pending is
the transport failing mid-session (`.error 599`).  `passCursor` is the
cursor slice of `processUser`: a 404 takes the re-baseline path
(persist the profile's history id; the profile fetch is modeled as
succeeding — its failure throws with no cursor write, like any other
error), any other error propagates with no cursor write, and a drained
session persists the tracked watermark iff it is truthy and differs
from the stored cursor.  The per-message loop between draining and
persisting catches every per-message error, so it cannot affect the
cursor. -/

structure HistoryPage where
  messages : List (String × String)
  historyId : Option String
  hasNext : Bool
deriving DecidableEq, Repr

inductive PageFetch where
  | ok (page : HistoryPage)
  | fail (status : Nat)
deriving DecidableEq, Repr

def drainPages : List PageFetch → List (String × String) → Option String →
    Except Nat (List (String × String) × Option String)
  | [], _, _ => Except.error 599
  | f :: rest, msgs, latest =>
    match f with
    | .fail s => Except.error s
    | .ok page =>
      let msgs' := page.messages.foldl (fun acc m => alistSet acc m.1 m.2) msgs
      let latest' :=
        match page.historyId with
        | some h => if h != "" then some h else latest
        | none => latest
      if page.hasNext then drainPages rest msgs' latest'
      else Except.ok (msgs', latest')

def passCursor (stored : Option String) (script : List PageFetch)
    (profileHistoryId : Option String) : Option String :=
  match drainPages script [] stored with
  | .error e => if e = 404 then profileHistoryId else stored
  | .ok (_, latest) => if jsTruthy latest && latest != stored then latest else stored

/-- The non-empty watermark a single page contributes (the truthiness
check on `page.historyId`). -/
def pageWatermark (p : HistoryPage) : List String :=
  match p.historyId with
  | some h => if h != "" then [h] else []
  | none => []

/-- The non-empty watermarks the provider returns during one paging
session, in order, up to the page that ends the session. -/
def watermarksSeen : List PageFetch → List String
  | [] => []
  | .fail _ :: _ => []
  | .ok page :: rest =>
    if page.hasNext then pageWatermark page ++ watermarksSeen rest else pageWatermark page

/-- Numeric reading of a decimal watermark string, 0 when malformed. -/
def toNatD (s : String) : Nat :=
  if s.data ≠ [] ∧ s.data.all Char.isDigit then
    s.data.foldl (fun n c => n * 10 + (c.toNat - 48)) 0
  else 0

/-! ## Credential flagging and pass eligibility (poll_gmail/index.ts:387-479, 787-793)

`flagReauth` re-reads the credential row, no-ops (and sends no
notification) when the flag is already set or the row is missing, and
otherwise writes `needs_reauth := true` and notifies.  The returned
Bool is whether a reauth notification was attempted.  The handler
selects credentials with `.eq("needs_reauth", false)`. -/

structure Credential where
  id : String
  userId : String
  needsReauth : Bool
  lastHistoryId : Option String
deriving DecidableEq, Repr

def flagReauth (store : List Credential) (credId : String) : List Credential × Bool :=
  match store.find? (fun c => c.id == credId) with
  | none => (store, false)
  | some c =>
    if c.needsReauth then (store, false)
    else
      (store.map (fun c' => if c'.id == credId then { c' with needsReauth := true } else c'),
       true)

def setCursorOp (store : List Credential) (credId : String) (v : Option String) :
    List Credential :=
  store.map (fun c => if c.id == credId then { c with lastHistoryId := v } else c)

def eligibleCredentials (store : List Credential) : List Credential :=
  store.filter (fun c => !c.needsReauth)

/-! ## Token lifecycle within one user pass (poll_gmail/index.ts:334-380, 488-572)

The auth slice of `processUser`: a missing refresh token flags reauth
and returns; `ensureAccessToken` refreshes only when no access token
is cached; a 401 from the first history drain triggers exactly one
refresh-and-retry; `updateAccessToken` flags reauth only when
`shouldFlagReauth` classifies the refresh error as a permanent auth
failure (400/401/invalid_grant/invalid_client), then rethrows; errors
of the retried drain (including a second 401) propagate uncaught. -/

inductive RefreshResult where
  | ok
  | permFail
  | transientFail
deriving DecidableEq, Repr

inductive HistResult where
  | ok
  | auth401
  | notFound404
  | failOther
deriving DecidableEq, Repr

structure AuthEnv where
  hasRefreshToken : Bool
  hasAccessToken : Bool
  refreshEnsure : RefreshResult
  refreshRetry : RefreshResult
  hist1 : HistResult
  hist2 : HistResult
deriving DecidableEq, Repr

structure AuthPassResult where
  flagged : Bool
  refreshCalls : Nat
  retries401 : Nat
  aborted : Bool
deriving DecidableEq, Repr

def authPass (env : AuthEnv) : AuthPassResult :=
  if !env.hasRefreshToken then
    { flagged := true, refreshCalls := 0, retries401 := 0, aborted := false }
  else if !env.hasAccessToken && env.refreshEnsure != RefreshResult.ok then
    { flagged := env.refreshEnsure == RefreshResult.permFail, refreshCalls := 1,
      retries401 := 0, aborted := true }
  else
    let ensureCalls := if env.hasAccessToken then 0 else 1
    match env.hist1 with
    | .ok =>
      { flagged := false, refreshCalls := ensureCalls, retries401 := 0, aborted := false }
    | .notFound404 =>
      { flagged := false, refreshCalls := ensureCalls, retries401 := 0, aborted := false }
    | .failOther =>
      { flagged := false, refreshCalls := ensureCalls, retries401 := 0, aborted := true }
    | .auth401 =>
      match env.refreshRetry with
      | .permFail =>
        { flagged := true, refreshCalls := ensureCalls + 1, retries401 := 0, aborted := true }
      | .transientFail =>
        { flagged := false, refreshCalls := ensureCalls + 1, retries401 := 0, aborted := true }
      | .ok =>
        match env.hist2 with
        | .ok =>
          { flagged := false, refreshCalls := ensureCalls + 1, retries401 := 1, aborted := false }
        | .auth401 =>
          { flagged := false, refreshCalls := ensureCalls + 1, retries401 := 1, aborted := true }
        | .notFound404 =>
          { flagged := false, refreshCalls := ensureCalls + 1, retries401 := 1, aborted := true }
        | .failOther =>
          { flagged := false, refreshCalls := ensureCalls + 1, retries401 := 1, aborted := true }

/-! ## Message fetch with thread fallback (poll_gmail with thread fallback,
src/supabase/functions/_tests/reply_preprocessor.test.ts:979-1028 and 230-254)

`fetchMessage` failing with a message containing "404" falls back to
`fetchThread`; the fallback selects the entry with the matching id,
else the first SENT-labeled entry (`Array.find`).  Every failure path
logs and `continue`s, so a resolution of `none` skips exactly that
reference. -/

structure GmailMessage where
  id : String
  threadId : String
  labelIds : List String
deriving DecidableEq, Repr

structure GmailThread where
  id : String
  messages : List GmailMessage
deriving DecidableEq, Repr

inductive FetchOutcome (α : Type) where
  | ok (val : α)
  | err (notFound : Bool)
deriving DecidableEq, Repr

structure FetchEnv where
  message : FetchOutcome GmailMessage
  thread : FetchOutcome GmailThread
deriving DecidableEq, Repr

def threadFallbackSelect (t : GmailThread) (messageId : String) : Option GmailMessage :=
  match t.messages.find? (fun m => m.id == messageId) with
  | some m => some m
  | none => t.messages.find? (fun m => m.labelIds.contains "SENT")

def resolveMessage (env : FetchEnv) (messageId : String) : Option GmailMessage :=
  match env.message with
  | .ok m => some m
  | .err notFound =>
    if notFound then
      match env.thread with
      | .ok t => threadFallbackSelect t messageId
      | .err _ => none
    else none

/-- Modelled from the spec: the spec's wording for the second fallback,
"the most recent sent-labeled entry of that thread", under the
provider's oldest-first message ordering — i.e. the last SENT-labeled
entry.  Stated only to compare against `threadFallbackSelect`, which is
the code's behavior. -/
def specSelectFallback (t : GmailThread) (messageId : String) : Option GmailMessage :=
  match t.messages.find? (fun m => m.id == messageId) with
  | some m => some m
  | none => (t.messages.filter (fun m => m.labelIds.contains "SENT")).getLast?

def batchResolve (envs : List (String × FetchEnv)) : List GmailMessage :=
  envs.filterMap (fun p => resolveMessage p.2 p.1)

/-! ## Concrete fixtures used by counterexamples and witnesses -/

def demoOwner : UserRec :=
  { id := "owner-1", email := "owner@example.com", partnerUserId := some "partner-1" }

def demoPartner : UserRec :=
  { id := "partner-1", email := "partner@example.com", partnerUserId := some "owner-1" }

def demoExtraction : GeminiInvite :=
  { invite_id := "1A", title := "Dinner", summary := "Dinner at seven" }

def demoMsgOwner : MessageCtx :=
  { messageId := "msg-1", threadId := "thread-1", emailText := "body", subject := "Dinner",
    recipients := ["partner@example.com"], extraction := demoExtraction }

def demoMsgPartner : MessageCtx :=
  { messageId := "msg-2", threadId := "thread-1", emailText := "body", subject := "Dinner",
    recipients := ["owner@example.com"], extraction := demoExtraction }

def demoMsgPartnerEmpty : MessageCtx :=
  { demoMsgPartner with recipients := [] }

def regressScript : List PageFetch :=
  [PageFetch.ok { messages := [("m1", "t1")], historyId := some "5", hasNext := true },
   PageFetch.ok { messages := [], historyId := some "3", hasNext := false }]

def goodScript : List PageFetch :=
  [PageFetch.ok { messages := [("m1", "t1")], historyId := some "7", hasNext := false }]

def demoSentA : GmailMessage :=
  { id := "sent-old", threadId := "thread-9", labelIds := ["SENT"] }

def demoSentB : GmailMessage :=
  { id := "sent-new", threadId := "thread-9", labelIds := ["SENT"] }

def demoThread : GmailThread :=
  { id := "thread-9", messages := [demoSentA, demoSentB] }

def demoPendingRow : InviteRow :=
  { rowId := 1, userId := "owner-1", gmailThreadId := "thread-1", gmailMessageId := "msg-1",
    sourceSubject := "Dinner", parsed := demoExtraction, sharedUserIds := [],
    status := "pending" }

def demoApprovedRow : InviteRow :=
  { demoPendingRow with status := "approved" }

def demoAuthEnvRetry401 : AuthEnv :=
  { hasRefreshToken := true, hasAccessToken := true, refreshEnsure := RefreshResult.ok,
    refreshRetry := RefreshResult.ok, hist1 := HistResult.auth401, hist2 := HistResult.auth401 }

def demoAuthEnvPermFail : AuthEnv :=
  { hasRefreshToken := true, hasAccessToken := false, refreshEnsure := RefreshResult.permFail,
    refreshRetry := RefreshResult.ok, hist1 := HistResult.ok, hist2 := HistResult.ok }

def demoCredStore : List Credential :=
  [{ id := "cred-1", userId := "user-1", needsReauth := true, lastHistoryId := some "9" },
   { id := "cred-2", userId := "user-2", needsReauth := false, lastHistoryId := none }]

/-! ## Theorems -/

/-- Claim C10: `decodeBase64Url` is total and never throws.  The falsy
inputs (`undefined`, `""`) produce `""`, a failing `atob` is caught and
produces `""`, and a successful `atob` produces the non-fatal UTF-8
decode of the bytes, so every input yields a string. -/
theorem decode_base64url_total :
    decodeBase64Url none = "" ∧ decodeBase64Url (some "") = "" ∧
    (∀ s, atobBytes (b64Pad (b64Normalize s)) = none → decodeBase64Url (some s) = "") ∧
    (∀ s bytes, atobBytes (b64Pad (b64Normalize s)) = some bytes →
      decodeBase64Url (some s) = String.mk (utf8DecodeLossy bytes)) := by
  refine ⟨rfl, rfl, ?_, ?_⟩
  · intro s h
    by_cases hs : s = ""
    · subst hs; rfl
    · simp only [decodeBase64Url, hs, if_false, h]
  · intro s bytes h
    by_cases hs : s = ""
    · subst hs
      have h0 : atobBytes (b64Pad (b64Normalize "")) = some ([] : List Nat) := by decide
      rw [h0] at h
      cases h
      rfl
    · simp only [decodeBase64Url, hs, if_false, h]

/-- Witness for C10: a string that is not valid base64 decodes to `""`
through the caught `atob` failure, and a valid one decodes to the UTF-8
reading of its bytes ("Hello"). -/
theorem decode_base64url_total_witness :
    decodeBase64Url (some "!") = "" ∧
    decodeBase64Url (some "SGVsbG8") = String.mk (utf8DecodeLossy [72, 101, 108, 108, 111]) :=
  ⟨decode_base64url_total.2.2.1 "!" (by decide),
   decode_base64url_total.2.2.2 "SGVsbG8" [72, 101, 108, 108, 111] (by decide)⟩

/-- Counterexample for C7: the fallback arm does not return the input
unchanged — it returns the trimmed input.  On `" custom-42 "` with an
empty letter mapping the result is `"custom-42"`, not the input. -/
theorem resolve_invite_id_trims_cex :
    resolveInviteId " custom-42 " [] = "custom-42" ∧
    resolveInviteId " custom-42 " [] ≠ " custom-42 " := by
  constructor
  · decide
  · decide

/-- Claim C7 (amended): `resolveInviteId` works on the trimmed input and
tries, in priority order: exact lookup of the uppercased trimmed input
in the letter mapping (whose keys include bare-letter and
"INVITE letter" forms), then the single-letter matcher, then the
case-insensitive "Invite letter" matcher, and otherwise returns the
trimmed input as already canonical; an earlier match (with a truthy
value) always wins. -/
theorem resolve_invite_id_priority (raw : String) (m : List (String × String)) :
    (jsTrim raw = "" → resolveInviteId raw m = jsTrim raw) ∧
    (∀ d, jsTrim raw ≠ "" → alistFind m (upperString (jsTrim raw)) = some d → d ≠ "" →
      resolveInviteId raw m = d) ∧
    (∀ c, jsTrim raw ≠ "" → jsTruthy (alistFind m (upperString (jsTrim raw))) = false →
      singleLetterOf (jsTrim raw) = some c →
      resolveInviteId raw m = (alistFind m (String.mk [c.toUpper])).getD (jsTrim raw)) ∧
    (∀ c, jsTrim raw ≠ "" → jsTruthy (alistFind m (upperString (jsTrim raw))) = false →
      singleLetterOf (jsTrim raw) = none → inviteWordMatch (jsTrim raw) = some c →
      resolveInviteId raw m = (alistFind m (String.mk [c.toUpper])).getD (jsTrim raw)) ∧
    (jsTrim raw ≠ "" → jsTruthy (alistFind m (upperString (jsTrim raw))) = false →
      singleLetterOf (jsTrim raw) = none → inviteWordMatch (jsTrim raw) = none →
      resolveInviteId raw m = jsTrim raw) := by
  refine ⟨?_, ?_, ?_, ?_, ?_⟩
  · intro h0
    simp only [resolveInviteId, h0, if_true]
  · intro d h0 h1 h2
    simp only [resolveInviteId, h0, if_false, h1, jsTruthy, bne_iff_ne, ne_eq, h2,
      not_false_eq_true, if_true, Option.getD_some]
  · intro c h0 h1 h2
    simp only [resolveInviteId, h0, if_false, h1, Bool.false_eq_true, h2]
  · intro c h0 h1 h2 h3
    simp only [resolveInviteId, h0, if_false, h1, Bool.false_eq_true, h2, h3]
  · intro h0 h1 h2 h3
    simp only [resolveInviteId, h0, if_false, h1, Bool.false_eq_true, h2, h3]

/-- Witness for C7: the exact matcher resolves `"a"` through the
mapping entry for `"A"` (case-insensitive lookup). -/
theorem resolve_invite_id_priority_witness :
    resolveInviteId "a" [("A", "inv1")] = "inv1" :=
  (resolve_invite_id_priority "a" [("A", "inv1")]).2.1 "inv1"
    (by decide) (by decide) (by decide)

/-- Counterexample for C5: approved is not terminal — applying a reply
decision `no` to an invite whose status is `"approved"` rewrites the
status to `"declined"`; the handler updates with no guard on the
current status. -/
theorem reply_status_not_terminal_cex :
    (applyReplyDecision demoApprovedRow Decision.no none).status = "declined" ∧
    demoApprovedRow.status = "approved" ∧ ("declined" : String) ≠ "approved" := by
  refine ⟨rfl, rfl, by decide⟩

/-- Claim C5 (amended): a reply decision maps yes to approved, no to
declined, maybe to pending, and notes always update; the mapped status
is written unconditionally, so pending transitions as the claim states
but approved/declined are not terminal — a later reply overwrites them
through the same mapping. -/
theorem reply_status_transitions (row : InviteRow) (d : Decision) (n : Option String) :
    ((applyReplyDecision row d n).status = DecisionToStatus d) ∧
    ((applyReplyDecision row d n).notes = n) ∧
    (row.status = "pending" → d = Decision.yes → (applyReplyDecision row d n).status = "approved") ∧
    (row.status = "pending" → d = Decision.no → (applyReplyDecision row d n).status = "declined") ∧
    (row.status = "pending" → d = Decision.maybe →
      (applyReplyDecision row d n).status = "pending" ∧ (applyReplyDecision row d n).notes = n) := by
  refine ⟨rfl, rfl, ?_, ?_, ?_⟩
  · intro _ hd; subst hd; rfl
  · intro _ hd; subst hd; rfl
  · intro _ hd; subst hd; exact ⟨rfl, rfl⟩

/-- Witness for C5 (amended): a pending invite with decision yes becomes
approved. -/
theorem reply_status_transitions_witness :
    (applyReplyDecision demoPendingRow Decision.yes (some "ok")).status = "approved" :=
  (reply_status_transitions demoPendingRow Decision.yes (some "ok")).2.2.1 rfl rfl

/-- Counterexample for C4: a provider 401 after the single
refresh-and-retry aborts the user's pass but does not flip
`needs_reauth` — only a failing refresh call flags reauth. -/
theorem auth_retry_401_no_flag_cex :
    (authPass demoAuthEnvRetry401).aborted = true ∧
    (authPass demoAuthEnvRetry401).flagged = false ∧
    (authPass demoAuthEnvRetry401).retries401 = 1 := by
  refine ⟨rfl, rfl, rfl⟩

/-- Claim C4 (amended): a refresh call returning a permanent auth
failure flags reauth and aborts the pass (at the initial ensure or at
the 401-triggered refresh); a 401 from the retried provider call aborts
the pass without flagging; at most one refresh-and-retry happens per
credential per pass; transient errors (refresh 5xx/network, provider
5xx) abort without flagging. -/
theorem auth_pass_terminal_behavior (env : AuthEnv) :
    ((authPass env).retries401 ≤ 1) ∧
    (env.hasRefreshToken = true → env.hasAccessToken = false →
      env.refreshEnsure = RefreshResult.permFail →
      (authPass env).flagged = true ∧ (authPass env).aborted = true) ∧
    (env.hasRefreshToken = true →
      (env.hasAccessToken = true ∨ env.refreshEnsure = RefreshResult.ok) →
      env.hist1 = HistResult.auth401 → env.refreshRetry = RefreshResult.permFail →
      (authPass env).flagged = true ∧ (authPass env).aborted = true) ∧
    (env.hasRefreshToken = true →
      (env.hasAccessToken = true ∨ env.refreshEnsure = RefreshResult.ok) →
      env.hist1 = HistResult.auth401 → env.refreshRetry = RefreshResult.ok →
      env.hist2 = HistResult.auth401 →
      (authPass env).flagged = false ∧ (authPass env).aborted = true) ∧
    (env.hasRefreshToken = true → env.hasAccessToken = false →
      env.refreshEnsure = RefreshResult.transientFail →
      (authPass env).flagged = false ∧ (authPass env).aborted = true) ∧
    (env.hasRefreshToken = true →
      (env.hasAccessToken = true ∨ env.refreshEnsure = RefreshResult.ok) →
      env.hist1 = HistResult.failOther →
      (authPass env).flagged = false ∧ (authPass env).aborted = true) ∧
    (env.hasRefreshToken = true →
      (env.hasAccessToken = true ∨ env.refreshEnsure = RefreshResult.ok) →
      env.hist1 = HistResult.auth401 → env.refreshRetry = RefreshResult.transientFail →
      (authPass env).flagged = false ∧ (authPass env).aborted = true) := by
  obtain ⟨hrt, hat, re, rr, h1, h2⟩ := env
  refine ⟨?_, ?_, ?_, ?_, ?_, ?_, ?_⟩
  · cases hrt <;> cases hat <;> cases re <;> cases rr <;> cases h1 <;> cases h2 <;> decide
  · intro ha hb hc
    subst ha; subst hb; subst hc
    simp [authPass]
  · intro ha hor hb hc
    subst ha; subst hb; subst hc
    rcases hor with h | h <;> subst h <;> simp [authPass]
  · intro ha hor hb hc hd
    subst ha; subst hb; subst hc; subst hd
    rcases hor with h | h <;> subst h <;> simp [authPass]
  · intro ha hb hc
    subst ha; subst hb; subst hc
    simp [authPass]
  · intro ha hor hb
    subst ha; subst hb
    rcases hor with h | h <;> subst h <;> simp [authPass]
  · intro ha hor hb hc
    subst ha; subst hb; subst hc
    rcases hor with h | h <;> subst h <;> simp [authPass]

/-- Witness for C4 (amended): a permanently rejected refresh exchange
flags reauth and aborts. -/
theorem auth_pass_terminal_behavior_witness :
    (authPass demoAuthEnvPermFail).flagged = true ∧ (authPass demoAuthEnvPermFail).aborted = true :=
  (auth_pass_terminal_behavior demoAuthEnvPermFail).2.1 rfl rfl rfl

/-- Counterexample for C8: when the message id is absent from the
fallback thread, the code selects the first SENT-labeled entry of the
thread's (oldest-first) message list, not the most recent one. -/
theorem thread_fallback_first_sent_cex :
    threadFallbackSelect demoThread "missing-id" = some demoSentA ∧
    specSelectFallback demoThread "missing-id" = some demoSentB ∧
    demoSentA ≠ demoSentB := by
  refine ⟨rfl, rfl, by decide⟩

/-- Claim C8 (amended): on a not-found message fetch the fetcher falls
back to the parent thread, selecting the entry with the matching id,
else the first SENT-labeled entry in thread order; if the thread fetch
fails or no entry qualifies, only that reference is skipped and the
rest of the batch is processed exactly as it would be without it. -/
theorem fetch_fallback_behavior (env : FetchEnv) (mid : String) :
    (∀ m, env.message = FetchOutcome.ok m → resolveMessage env mid = some m) ∧
    (∀ t m, env.message = FetchOutcome.err true → env.thread = FetchOutcome.ok t →
      t.messages.find? (fun x => x.id == mid) = some m → resolveMessage env mid = some m) ∧
    (∀ t, env.message = FetchOutcome.err true → env.thread = FetchOutcome.ok t →
      t.messages.find? (fun x => x.id == mid) = none →
      resolveMessage env mid = t.messages.find? (fun x => x.labelIds.contains "SENT")) ∧
    (∀ b, env.message = FetchOutcome.err true → env.thread = FetchOutcome.err b →
      resolveMessage env mid = none) ∧
    (∀ pre post, resolveMessage env mid = none →
      batchResolve (pre ++ (mid, env) :: post) = batchResolve pre ++ batchResolve post) := by
  refine ⟨?_, ?_, ?_, ?_, ?_⟩
  · intro m hm
    simp only [resolveMessage, hm]
  · intro t m hm ht hf
    simp only [resolveMessage, hm, ht, if_true, threadFallbackSelect, hf]
  · intro t hm ht hf
    simp only [resolveMessage, hm, ht, if_true, threadFallbackSelect, hf]
  · intro b hm ht
    simp only [resolveMessage, hm, ht, if_true]
  · intro pre post hnone
    simp only [batchResolve, List.filterMap_append, List.filterMap_cons, hnone]

/-- Witness for C8 (amended): the matching-id fallback recovers the
message from the thread, and a fully poisoned reference drops out of
the batch leaving its neighbors intact. -/
theorem fetch_fallback_behavior_witness :
    resolveMessage { message := FetchOutcome.err true, thread := FetchOutcome.ok demoThread }
      "sent-new" = some demoSentB ∧
    batchResolve
      [("x", { message := FetchOutcome.err true, thread := FetchOutcome.err false }),
       ("sent-new", { message := FetchOutcome.err true, thread := FetchOutcome.ok demoThread })]
      = batchResolve
        [("sent-new", { message := FetchOutcome.err true, thread := FetchOutcome.ok demoThread })] := by
  constructor
  · exact (fetch_fallback_behavior
      { message := FetchOutcome.err true, thread := FetchOutcome.ok demoThread }
      "sent-new").2.1 demoThread demoSentB rfl rfl (by decide)
  · have h := (fetch_fallback_behavior
      { message := FetchOutcome.err true, thread := FetchOutcome.err false } "x").2.2.2.2
      [] [("sent-new", { message := FetchOutcome.err true, thread := FetchOutcome.ok demoThread })]
      rfl
    simpa using h

/-- Counterexample for C2: the pass persists the last page watermark,
with no maximum or comparison logic.  Against a provider returning
watermarks 5 then 3 with stored cursor 10, the persisted cursor becomes
"3": it is neither unchanged nor the maximum watermark returned, and it
regresses numerically below both the stored cursor and a returned
watermark. -/
theorem cursor_pass_not_max_cex :
    passCursor (some "10") regressScript none = some "3" ∧
    "5" ∈ watermarksSeen regressScript ∧
    toNatD "3" < toNatD "5" ∧ toNatD "3" < toNatD "10" ∧
    (some "3" : Option String) ≠ some "10" := by
  refine ⟨rfl, by decide, by decide, by decide, by decide⟩

/-- Claim C3: `needs_reauth` is sticky inside the engine.  `flagReauth`
re-reads the credential row and no-ops without a second notification
when the flag is already set; no pass operation (`flagReauth`,
cursor writes) ever turns the flag from true back to false; and a
flagged credential is excluded from the pass's eligible set, so no
further automatic refresh attempt occurs for it.  (Clearing the flag is
the external re-authentication callback, out of scope of the engine.) -/
theorem needs_reauth_sticky (store : List Credential) (cid : String) (v : Option String) :
    (∀ c, store.find? (fun x => x.id == cid) = some c → c.needsReauth = true →
      flagReauth store cid = (store, false)) ∧
    ((flagReauth store cid).1.length = store.length) ∧
    (∀ i (h : i < store.length) (h' : i < (flagReauth store cid).1.length),
      (store.get ⟨i, h⟩).needsReauth = true →
      ((flagReauth store cid).1.get ⟨i, h'⟩).needsReauth = true) ∧
    ((setCursorOp store cid v).length = store.length) ∧
    (∀ i (h : i < store.length) (h' : i < (setCursorOp store cid v).length),
      (store.get ⟨i, h⟩).needsReauth = true →
      ((setCursorOp store cid v).get ⟨i, h'⟩).needsReauth = true) ∧
    (∀ c ∈ store, c.needsReauth = true → c ∉ eligibleCredentials store) := by
  refine ⟨?_, ?_, ?_, ?_, ?_, ?_⟩
  · intro c hf ht
    simp only [flagReauth, hf, ht, if_true]
  · rcases hfind : store.find? (fun x => x.id == cid) with _ | c
    · simp [flagReauth, hfind]
    · by_cases hnr : c.needsReauth <;> simp [flagReauth, hfind, hnr]
  · intro i h h' htrue
    rcases hfind : store.find? (fun x => x.id == cid) with _ | c
    · simpa [flagReauth, hfind] using htrue
    · by_cases hnr : c.needsReauth
      · simpa [flagReauth, hfind, hnr] using htrue
      · have hstore : (flagReauth store cid).1 =
            store.map (fun c' =>
              if c'.id == cid then { c' with needsReauth := true } else c') := by
          simp [flagReauth, hfind, hnr]
        simp only [List.get_eq_getElem] at htrue ⊢
        simp only [hstore, List.getElem_map]
        split
        · rfl
        · exact htrue
  · simp [setCursorOp]
  · intro i h h' htrue
    simp only [List.get_eq_getElem] at htrue ⊢
    simp only [setCursorOp, List.getElem_map]
    split
    · exact htrue
    · exact htrue
  · intro c hc ht hmem
    rw [eligibleCredentials, List.mem_filter] at hmem
    rw [ht] at hmem
    simp at hmem

/-- Witness for C3: a credential whose flag is already set makes
`flagReauth` a no-op with no notification, and it is not eligible for
the pass. -/
theorem needs_reauth_sticky_witness :
    flagReauth demoCredStore "cred-1" = (demoCredStore, false) :=
  (needs_reauth_sticky demoCredStore "cred-1" none).1
    { id := "cred-1", userId := "user-1", needsReauth := true, lastHistoryId := some "9" }
    (by decide) (by decide)

/-- Values contributed by a page watermark are non-empty. -/
theorem pageWatermark_ne_empty (p : HistoryPage) (w : String) :
    w ∈ pageWatermark p → w ≠ "" := by
  intro hw
  unfold pageWatermark at hw
  rcases p with ⟨msgs, hid, hnx⟩
  cases hid with
  | none => simp at hw
  | some h =>
    by_cases hb : h = "" <;> simp [hb] at hw
    exact hw ▸ hb

/-- Watermarks collected during a session are non-empty strings (the
code only records truthy `historyId`s). -/
theorem mem_watermarks_ne_empty :
    ∀ (script : List PageFetch) (w : String), w ∈ watermarksSeen script → w ≠ "" := by
  intro script
  induction script with
  | nil => intro w hw; simp [watermarksSeen] at hw
  | cons f rest ih =>
    intro w hw
    cases f with
    | fail s => simp [watermarksSeen] at hw
    | ok page =>
      by_cases hnx : page.hasNext
      · simp only [watermarksSeen, hnx, if_true, List.mem_append] at hw
        rcases hw with hw | hw
        · exact pageWatermark_ne_empty page w hw
        · exact ih w hw
      · simp only [watermarksSeen, hnx, Bool.false_eq_true, if_false] at hw
        exact pageWatermark_ne_empty page w hw

/-- A member of `getLast?` is a member of the list. -/
theorem mem_of_getLast?_eq {α : Type} {l : List α} {x : α} (h : l.getLast? = some x) :
    x ∈ l := by
  have hx : x ∈ l.getLast? := h
  obtain ⟨hne, hx⟩ := List.mem_getLast?_eq_getLast hx
  exact hx ▸ List.getLast_mem hne

/-- In a list sorted by non-decreasing numeric value, the last element
dominates every element. -/
theorem pairwise_le_getLast :
    ∀ (l : List String) (x : String), l.getLast? = some x →
      List.Pairwise (fun a b => toNatD a ≤ toNatD b) l →
      ∀ w ∈ l, toNatD w ≤ toNatD x := by
  intro l
  induction l with
  | nil => intro x hx; simp at hx
  | cons a t ih =>
    intro x hx hp w hw
    cases t with
    | nil =>
      simp at hx hw
      subst hx; subst hw; exact le_refl _
    | cons b t' =>
      rw [List.getLast?_cons_cons] at hx
      rcases List.pairwise_cons.mp hp with ⟨ha, hp'⟩
      rcases hw with _ | hw'
      · exact ha x (mem_of_getLast?_eq hx)
      · exact ih x hx hp' w (by assumption)

/-- The tracked `latestHistoryId` after a successful drain is the last
watermark the session returned, or the initial value when no page
carried a truthy watermark. -/
theorem drain_ok_latest :
    ∀ (script : List PageFetch) (msgs : List (String × String)) (latest0 : Option String)
      (m : List (String × String)) (l : Option String),
      drainPages script msgs latest0 = Except.ok (m, l) →
      l = ((watermarksSeen script).getLast?).or latest0 := by
  intro script
  induction script with
  | nil => intro msgs latest0 m l h; simp [drainPages] at h
  | cons f rest ih =>
    intro msgs latest0 m l h
    cases f with
    | fail s => simp [drainPages] at h
    | ok page =>
      have hlatest :
          (match page.historyId with
            | some hh => if hh != "" then some hh else latest0
            | none => latest0)
            = ((pageWatermark page).getLast?).or latest0 := by
        rcases hid : page.historyId with _ | hh
        · simp [pageWatermark, hid]
        · by_cases hb : hh = "" <;> simp [pageWatermark, hid, hb]
      by_cases hnx : page.hasNext
      · simp only [drainPages, hnx, if_true] at h
        have hrec := ih _ _ _ _ h
        rw [hrec, hlatest]
        rw [watermarksSeen]
        simp only [hnx, if_true]
        rcases hws : watermarksSeen rest with _ | ⟨w0, ws'⟩
        · simp
        · rw [List.getLast?_append_of_ne_nil _ (by simp)]
          have hne : (w0 :: ws').getLast? ≠ none := by
            simp [List.getLast?_eq_none_iff]
          rcases hlast : (w0 :: ws').getLast? with _ | wl
          · exact absurd hlast hne
          · simp [Option.or]
      · simp only [drainPages, hnx, Bool.false_eq_true, if_false, Except.ok.injEq,
          Prod.mk.injEq] at h
        rw [← h.2, hlatest]
        rw [watermarksSeen]
        simp [hnx]

/-- Claim C2 (amended): the cursor slice of a pass.  On any non-404
error during paging the drain aborts and the stored cursor is
untouched; a 404 takes the re-baseline path and persists the freshly
fetched profile watermark; a fully drained session persists the last
watermark the provider returned (or leaves the cursor untouched when it
saw none, or when it equals the stored value).  The code performs no
maximum or ordering comparison, so the persisted value equals the
maximum watermark, and never regresses, exactly when the provider's
watermarks are non-decreasing and bounded below by the stored cursor. -/
theorem cursor_pass_last_watermark (stored : Option String) (script : List PageFetch)
    (profile : Option String) :
    (∀ e, drainPages script [] stored = Except.error e → e ≠ 404 →
      passCursor stored script profile = stored) ∧
    (drainPages script [] stored = Except.error 404 →
      passCursor stored script profile = profile) ∧
    (∀ m l, drainPages script [] stored = Except.ok (m, l) →
      l = ((watermarksSeen script).getLast?).or stored) ∧
    (∀ m l w, drainPages script [] stored = Except.ok (m, l) →
      (watermarksSeen script).getLast? = some w →
      passCursor stored script profile = some w) ∧
    (∀ m l w, drainPages script [] stored = Except.ok (m, l) →
      (watermarksSeen script).getLast? = some w →
      List.Pairwise (fun a b => toNatD a ≤ toNatD b) (watermarksSeen script) →
      (∀ u ∈ watermarksSeen script, toNatD (stored.getD "") ≤ toNatD u) →
      (∀ u ∈ watermarksSeen script, toNatD u ≤ toNatD w) ∧
        toNatD (stored.getD "") ≤ toNatD w) := by
  refine ⟨?_, ?_, ?_, ?_, ?_⟩
  · intro e he hne
    simp [passCursor, he, hne]
  · intro he
    simp [passCursor, he]
  · intro m l h
    exact drain_ok_latest script [] stored m l h
  · intro m l w h hlast
    have hl : l = some w := by
      rw [drain_ok_latest script [] stored m l h, hlast]
      rfl
    subst hl
    have hwne : w ≠ "" := mem_watermarks_ne_empty script w (mem_of_getLast?_eq hlast)
    by_cases hb : (some w : Option String) = stored
    · subst hb
      simp [passCursor, h]
    · have hbne : ((some w : Option String) != stored) = true := by
        simpa using hb
      simp [passCursor, h, jsTruthy, hwne, hbne]
  · intro m l w _h hlast hsorted hlow
    refine ⟨pairwise_le_getLast _ w hlast hsorted, hlow w (mem_of_getLast?_eq hlast)⟩

/-- Witness for C2 (amended): a single drained page with watermark "7"
advances the stored cursor "4" to "7". -/
theorem cursor_pass_last_watermark_witness :
    passCursor (some "4") goodScript none = some "7" :=
  (cursor_pass_last_watermark (some "4") goodScript none).2.2.2.1
    [("m1", "t1")] (some "7") "7" (by rfl) (by decide)

/-! ### JavaScript `Set` lemmas -/

theorem mem_setAdd {s : List String} {x y : String} :
    y ∈ setAdd s x ↔ y ∈ s ∨ y = x := by
  unfold setAdd
  split
  · rename_i hx
    constructor
    · exact Or.inl
    · rintro (h | h)
      · exact h
      · exact h ▸ hx
  · simp [List.mem_append]

theorem setAdd_nodup {s : List String} {x : String} (h : s.Nodup) : (setAdd s x).Nodup := by
  unfold setAdd
  split
  · exact h
  · rename_i hx
    simp [List.nodup_append, h, hx]

theorem setAdd_eq_of_mem {s : List String} {x : String} (h : x ∈ s) : setAdd s x = s := by
  simp [setAdd, h]

theorem setAdd_append (s : List String) (x : String) :
    setAdd s x = s ∨ setAdd s x = s ++ [x] := by
  unfold setAdd
  split
  · exact Or.inl rfl
  · exact Or.inr rfl

theorem setAddAll_cons (s : List String) (x : String) (xs : List String) :
    setAddAll s (x :: xs) = setAddAll (setAdd s x) xs := rfl

theorem mem_setAddAll {xs : List String} :
    ∀ {s y}, y ∈ setAddAll s xs ↔ y ∈ s ∨ y ∈ xs := by
  induction xs with
  | nil => intro s y; simp [setAddAll]
  | cons x xs ih =>
    intro s y
    rw [setAddAll_cons, ih, mem_setAdd]
    simp only [List.mem_cons]
    tauto

theorem setAddAll_nodup {xs : List String} :
    ∀ {s : List String}, s.Nodup → (setAddAll s xs).Nodup := by
  induction xs with
  | nil => intro s h; exact h
  | cons x xs ih =>
    intro s h
    rw [setAddAll_cons]
    exact ih (setAdd_nodup h)

theorem setAddAll_eq_of_subset {xs : List String} :
    ∀ {s : List String}, (∀ x ∈ xs, x ∈ s) → setAddAll s xs = s := by
  induction xs with
  | nil => intro s _; rfl
  | cons x xs ih =>
    intro s h
    rw [setAddAll_cons, setAdd_eq_of_mem (h x (by simp))]
    exact ih fun y hy => h y (by simp [hy])

theorem setAddAll_exists_append (xs : List String) :
    ∀ s : List String, ∃ e, setAddAll s xs = s ++ e := by
  induction xs with
  | nil => intro s; exact ⟨[], by simp [setAddAll]⟩
  | cons x xs ih =>
    intro s
    rw [setAddAll_cons]
    obtain ⟨e, he⟩ := ih (setAdd s x)
    rcases setAdd_append s x with h | h
    · exact ⟨e, by rw [he, h]⟩
    · exact ⟨[x] ++ e, by rw [he, h, List.append_assoc]⟩

theorem setFromList_nodup (xs : List String) : (setFromList xs).Nodup :=
  setAddAll_nodup (by simp)

theorem mem_setFromList {xs : List String} {y : String} :
    y ∈ setFromList xs ↔ y ∈ xs := by
  simp [setFromList, mem_setAddAll]

theorem setAddAll_of_disjoint :
    ∀ (xs : List String) (s : List String), xs.Nodup → (∀ x ∈ xs, x ∉ s) →
      setAddAll s xs = s ++ xs := by
  intro xs
  induction xs with
  | nil => intro s _ _; simp [setAddAll]
  | cons x xs ih =>
    intro s hnd hdis
    rw [setAddAll_cons]
    have hx : x ∉ s := hdis x (by simp)
    have hset : setAdd s x = s ++ [x] := by simp [setAdd, hx]
    have hdis' : ∀ y ∈ xs, y ∉ s ++ [x] := by
      intro y hy
      simp only [List.mem_append, List.mem_singleton]
      rintro (h | h)
      · exact hdis y (by simp [hy]) h
      · exact (List.nodup_cons.mp hnd).1 (h ▸ hy)
    rw [hset, ih (s ++ [x]) (List.nodup_cons.mp hnd).2 hdis', List.append_assoc]
    rfl

theorem setFromList_eq_self {xs : List String} (h : xs.Nodup) : setFromList xs = xs := by
  have := setAddAll_of_disjoint xs [] h (by simp)
  simpa [setFromList] using this

/-! ### Merge lemmas -/

theorem mem_mergeSharedSet {related : InviteRow} {uid : String} {shared : List String}
    {y : String} :
    y ∈ mergeSharedSet related uid shared ↔
      y ∈ related.sharedUserIds ∨ (related.userId ≠ uid ∧ y = uid) ∨ y ∈ shared := by
  unfold mergeSharedSet
  by_cases h : related.userId = uid
  · simp [h, mem_setAddAll, mem_setFromList]
  · simp only [h, ne_eq, not_false_eq_true, bne_iff_ne, if_true, mem_setAddAll, mem_setAdd,
      mem_setFromList, true_and]
    tauto

theorem mergeSharedSet_nodup (related : InviteRow) (uid : String) (shared : List String) :
    (mergeSharedSet related uid shared).Nodup := by
  unfold mergeSharedSet
  split
  · exact setAddAll_nodup (setAdd_nodup (setFromList_nodup _))
  · exact setAddAll_nodup (setFromList_nodup _)

theorem mergeSharedSet_exists_append {related : InviteRow} (uid : String)
    (shared : List String) (hnd : related.sharedUserIds.Nodup) :
    ∃ e, mergeSharedSet related uid shared = related.sharedUserIds ++ e := by
  unfold mergeSharedSet
  rw [setFromList_eq_self hnd]
  split
  · rcases setAdd_append related.sharedUserIds uid with h | h
    · rw [h]; exact setAddAll_exists_append shared _
    · rw [h]
      obtain ⟨e, he⟩ := setAddAll_exists_append shared (related.sharedUserIds ++ [uid])
      exact ⟨[uid] ++ e, by rw [he, List.append_assoc]⟩
  · exact setAddAll_exists_append shared _

theorem mergeSharedSet_idem (related : InviteRow) (uid : String) (shared : List String) :
    mergeSharedSet { related with sharedUserIds := mergeSharedSet related uid shared }
      uid shared = mergeSharedSet related uid shared := by
  have hnd := mergeSharedSet_nodup related uid shared
  show setAddAll
      (if (related.userId != uid) = true then
        setAdd (setFromList (mergeSharedSet related uid shared)) uid
      else setFromList (mergeSharedSet related uid shared)) shared
    = mergeSharedSet related uid shared
  rw [setFromList_eq_self hnd]
  by_cases h : related.userId = uid
  · rw [if_neg (by simp [h])]
    exact setAddAll_eq_of_subset fun x hx =>
      mem_mergeSharedSet.mpr (Or.inr (Or.inr hx))
  · rw [if_pos (by simp [h]),
      setAdd_eq_of_mem (mem_mergeSharedSet.mpr (Or.inr (Or.inl ⟨h, rfl⟩)))]
    exact setAddAll_eq_of_subset fun x hx =>
      mem_mergeSharedSet.mpr (Or.inr (Or.inr hx))

/-! ### Store lookup lemmas -/

theorem findByMessageId_update (db : List InviteRow) (rid : Nat) (s : List String)
    (mid : String) :
    findByMessageId (updateSharedByRowId db rid s) mid
      = (findByMessageId db mid).map
          (fun r => if r.rowId == rid then { r with sharedUserIds := s } else r) := by
  unfold findByMessageId updateSharedByRowId
  rw [List.find?_map]
  have hp : ((fun r : InviteRow => r.gmailMessageId == mid) ∘ fun r =>
      if r.rowId == rid then { r with sharedUserIds := s } else r)
      = fun r : InviteRow => r.gmailMessageId == mid := by
    funext r
    simp only [Function.comp]
    split <;> rfl
  rw [hp]

theorem findByThreadId_update (db : List InviteRow) (rid : Nat) (s : List String)
    (tid : String) :
    findByThreadId (updateSharedByRowId db rid s) tid
      = (findByThreadId db tid).map
          (fun r => if r.rowId == rid then { r with sharedUserIds := s } else r) := by
  unfold findByThreadId updateSharedByRowId
  rw [List.find?_map]
  have hp : ((fun r : InviteRow => r.gmailThreadId == tid) ∘ fun r =>
      if r.rowId == rid then { r with sharedUserIds := s } else r)
      = fun r : InviteRow => r.gmailThreadId == tid := by
    funext r
    simp only [Function.comp]
    split <;> rfl
  rw [hp]

theorem updateShared_rowIds (db : List InviteRow) (rid : Nat) (s : List String) :
    (updateSharedByRowId db rid s).map (·.rowId) = db.map (·.rowId) := by
  unfold updateSharedByRowId
  rw [List.map_map]
  have hp : ((fun r : InviteRow => r.rowId) ∘ fun r =>
      if r.rowId == rid then { r with sharedUserIds := s } else r)
      = fun r : InviteRow => r.rowId := by
    funext r
    simp only [Function.comp]
    split <;> rfl
  rw [hp]

theorem le_foldr_max : ∀ {l : List Nat} {x : Nat}, x ∈ l → x ≤ l.foldr Nat.max 0 := by
  intro l
  induction l with
  | nil => intro x h; simp at h
  | cons a t ih =>
    intro x h
    rcases List.mem_cons.mp h with h | h
    · subst h; exact Nat.le_max_left _ _
    · exact le_trans (ih h) (Nat.le_max_right _ _)

theorem freshRowId_not_mem (db : List InviteRow) :
    freshRowId db ∉ db.map (·.rowId) := by
  intro h
  have := le_foldr_max h
  simp only [freshRowId] at this ⊢
  omega

theorem computeShared_nodup (user : UserRec) (partner : Option UserRec)
    (recipients : List String) :
    (computeShared user partner recipients).Nodup := by
  unfold computeShared setDelete
  apply List.Nodup.filter
  rcases partner with _ | p
  · simp
  · simp only
    split
    · simp [setAdd]
    · simp

/-! ### Branch characterizations of processMessage -/

theorem pm_skip_text {db : List InviteRow} {user : UserRec} {partner : Option UserRec}
    {msg : MessageCtx} {dry : Bool} (h : jsTrim msg.emailText = "") :
    processMessage db user partner msg dry = db := by
  simp [processMessage, h]

theorem pm_skip_incomplete {db : List InviteRow} {user : UserRec} {partner : Option UserRec}
    {msg : MessageCtx} {dry : Bool}
    (h : msg.extraction.invite_id = "" ∨ msg.extraction.title = "" ∨
      msg.extraction.summary = "") :
    processMessage db user partner msg dry = db := by
  simp [processMessage, h]

theorem pm_skip_exists {db : List InviteRow} {user : UserRec} {partner : Option UserRec}
    {msg : MessageCtx} {dry : Bool} {r0 : InviteRow}
    (hmid : findByMessageId db msg.messageId = some r0) :
    processMessage db user partner msg dry = db := by
  simp [processMessage, hmid]

theorem pm_merge_eq {db : List InviteRow} {user : UserRec} {partner : Option UserRec}
    {msg : MessageCtx} {related : InviteRow}
    (htext : jsTrim msg.emailText ≠ "")
    (hcomp : ¬(msg.extraction.invite_id = "" ∨ msg.extraction.title = "" ∨
      msg.extraction.summary = ""))
    (hmid : findByMessageId db msg.messageId = none)
    (hthr : findByThreadId db msg.threadId = some related) :
    processMessage db user partner msg false = mergeBranch db user partner msg related := by
  simp [processMessage, htext, hcomp, hmid, hthr]

theorem pm_insert_eq {db : List InviteRow} {user : UserRec} {partner : Option UserRec}
    {msg : MessageCtx}
    (htext : jsTrim msg.emailText ≠ "")
    (hcomp : ¬(msg.extraction.invite_id = "" ∨ msg.extraction.title = "" ∨
      msg.extraction.summary = ""))
    (hmid : findByMessageId db msg.messageId = none)
    (hthr : findByThreadId db msg.threadId = none) :
    processMessage db user partner msg false = db ++ [newInviteRow db user partner msg] := by
  simp [processMessage, htext, hcomp, hmid, hthr]

/-- The row-growth/no-change property of one message step, together
with preservation of well-formedness.  Shared by the idempotence and
merge theorems. -/
theorem processMessage_spec (db : List InviteRow) (user : UserRec)
    (partner : Option UserRec) (msg : MessageCtx) (hwf : WellFormedDb db) :
    WellFormedDb (processMessage db user partner msg false) ∧
    (∀ r ∈ db, ∃ r' ∈ processMessage db user partner msg false,
      r'.rowId = r.rowId ∧
      (r'.sharedUserIds = r.sharedUserIds ∨
        (r.sharedUserIds.length < r'.sharedUserIds.length ∧
          ∀ x ∈ r.sharedUserIds, x ∈ r'.sharedUserIds))) := by
  have hid : ∀ (h : processMessage db user partner msg false = db),
      WellFormedDb (processMessage db user partner msg false) ∧
      (∀ r ∈ db, ∃ r' ∈ processMessage db user partner msg false,
        r'.rowId = r.rowId ∧
        (r'.sharedUserIds = r.sharedUserIds ∨
          (r.sharedUserIds.length < r'.sharedUserIds.length ∧
            ∀ x ∈ r.sharedUserIds, x ∈ r'.sharedUserIds))) := by
    intro h
    rw [h]
    exact ⟨hwf, fun r hr => ⟨r, hr, rfl, Or.inl rfl⟩⟩
  by_cases htext : jsTrim msg.emailText = ""
  · exact hid (pm_skip_text htext)
  by_cases hcomp : msg.extraction.invite_id = "" ∨ msg.extraction.title = "" ∨
      msg.extraction.summary = ""
  · exact hid (pm_skip_incomplete hcomp)
  rcases hmid : findByMessageId db msg.messageId with _ | r0
  swap
  · exact hid (pm_skip_exists hmid)
  rcases hthr : findByThreadId db msg.threadId with _ | related
  · -- insert branch
    have he : processMessage db user partner msg false
        = db ++ [newInviteRow db user partner msg] := pm_insert_eq htext hcomp hmid hthr
    rw [he]
    constructor
    · constructor
      · intro r hr
        rcases List.mem_append.mp hr with h | h
        · exact hwf.1 r h
        · rcases List.mem_singleton.mp h with rfl
          exact computeShared_nodup user partner msg.recipients
      · rw [List.map_append]
        rw [List.nodup_append]
        refine ⟨hwf.2, by simp, ?_⟩
        intro x hx hx'
        simp only [List.map_cons, List.map_nil, List.mem_singleton] at hx'
        subst hx'
        exact freshRowId_not_mem db hx
    · intro r hr
      exact ⟨r, List.mem_append_left _ hr, rfl, Or.inl rfl⟩
  · -- merge branch
    by_cases hlen : (mergeSharedSet related user.id
        (computeShared user partner msg.recipients)).length
        ≠ related.sharedUserIds.length
    · have he : processMessage db user partner msg false
          = updateSharedByRowId db related.rowId
              (mergeSharedSet related user.id (computeShared user partner msg.recipients)) := by
        rw [pm_merge_eq htext hcomp hmid hthr]
        unfold mergeBranch
        rw [if_pos hlen]
      have hrelmem : related ∈ db := List.mem_of_find?_eq_some hthr
      have hrelnd : related.sharedUserIds.Nodup := hwf.1 related hrelmem
      obtain ⟨e, hme⟩ := mergeSharedSet_exists_append user.id
        (computeShared user partner msg.recipients) hrelnd
      rw [he]
      constructor
      · constructor
        · intro r' hr'
          unfold updateSharedByRowId at hr'
          rcases List.mem_map.mp hr' with ⟨r, hr, hfr⟩
          subst hfr
          split
          · exact mergeSharedSet_nodup related user.id _
          · exact hwf.1 r hr
        · rw [updateShared_rowIds]
          exact hwf.2
      · intro r hr
        refine ⟨if r.rowId == related.rowId then
            { r with sharedUserIds := mergeSharedSet related user.id (computeShared user partner msg.recipients) }
          else r, ?_, ?_, ?_⟩
        · exact List.mem_map_of_mem _ hr
        · split <;> rfl
        · by_cases hb : r.rowId == related.rowId
          · have hreq : r = related :=
              List.inj_on_of_nodup_map hwf.2 hr hrelmem (eq_of_beq hb)
            subst hreq
            rw [if_pos hb]
            refine Or.inr ⟨?_, ?_⟩
            · have hlen2 := hlen
              rw [hme, List.length_append] at hlen2
              simp only [hme, List.length_append]
              omega
            · intro x hx
              exact mem_mergeSharedSet.mpr (Or.inl hx)
          · rw [if_neg hb]
            exact Or.inl rfl
    · have he : processMessage db user partner msg false = db := by
        rw [pm_merge_eq htext hcomp hmid hthr]
        unfold mergeBranch
        rw [if_neg hlen]
      exact hid he

/-- Claim C1: processing the same Gmail message a second time changes
nothing: the `gmail_message_id` dedup check short-circuits before any
insert after an insert, and a replayed thread merge recomputes the same
set and fails the strictly-larger persist condition.  The database
stays well-formed (no duplicate `sharedUserIds` entries), and any row's
shared set is either untouched or replaced by a strict superset (the
merge persists only when the merged set is strictly larger). -/
theorem invite_pipeline_idempotent (db : List InviteRow) (user : UserRec)
    (partner : Option UserRec) (msg : MessageCtx) (hwf : WellFormedDb db) :
    processMessage (processMessage db user partner msg false) user partner msg false
      = processMessage db user partner msg false ∧
    WellFormedDb (processMessage db user partner msg false) ∧
    (∀ r ∈ db, ∃ r' ∈ processMessage db user partner msg false,
      r'.rowId = r.rowId ∧
      (r'.sharedUserIds = r.sharedUserIds ∨
        (r.sharedUserIds.length < r'.sharedUserIds.length ∧
          ∀ x ∈ r.sharedUserIds, x ∈ r'.sharedUserIds))) := by
  obtain ⟨hwf1, hgrow⟩ := processMessage_spec db user partner msg hwf
  refine ⟨?_, hwf1, hgrow⟩
  by_cases htext : jsTrim msg.emailText = ""
  · rw [pm_skip_text htext]
  by_cases hcomp : msg.extraction.invite_id = "" ∨ msg.extraction.title = "" ∨
      msg.extraction.summary = ""
  · rw [pm_skip_incomplete hcomp]
  rcases hmid : findByMessageId db msg.messageId with _ | r0
  swap
  · rw [pm_skip_exists hmid]; exact pm_skip_exists hmid
  rcases hthr : findByThreadId db msg.threadId with _ | related
  · have he : processMessage db user partner msg false
        = db ++ [newInviteRow db user partner msg] := pm_insert_eq htext hcomp hmid hthr
    rw [he]
    have hfound : findByMessageId (db ++ [newInviteRow db user partner msg]) msg.messageId
        = some (newInviteRow db user partner msg) := by
      unfold findByMessageId at hmid ⊢
      rw [List.find?_append, hmid]
      simp [newInviteRow]
    rw [pm_skip_exists hfound]
  · by_cases hlen : (mergeSharedSet related user.id
        (computeShared user partner msg.recipients)).length
        ≠ related.sharedUserIds.length
    · have he : processMessage db user partner msg false
          = updateSharedByRowId db related.rowId
              (mergeSharedSet related user.id (computeShared user partner msg.recipients)) := by
        rw [pm_merge_eq htext hcomp hmid hthr]
        unfold mergeBranch
        rw [if_pos hlen]
      rw [he]
      have hmid2 : findByMessageId
          (updateSharedByRowId db related.rowId
            (mergeSharedSet related user.id (computeShared user partner msg.recipients)))
          msg.messageId = none := by
        rw [findByMessageId_update, hmid]
        rfl
      have hthr2 : findByThreadId
          (updateSharedByRowId db related.rowId
            (mergeSharedSet related user.id (computeShared user partner msg.recipients)))
          msg.threadId
          = some { related with sharedUserIds := mergeSharedSet related user.id (computeShared user partner msg.recipients) } := by
        rw [findByThreadId_update, hthr]
        simp
      rw [pm_merge_eq htext hcomp hmid2 hthr2]
      unfold mergeBranch
      rw [mergeSharedSet_idem]
      rw [if_neg (by simp)]
    · have he : processMessage db user partner msg false = db := by
        rw [pm_merge_eq htext hcomp hmid hthr]
        unfold mergeBranch
        rw [if_neg hlen]
      rw [he]
      exact he

/-- Witness for C1: replaying the owner's message over the empty store
is a no-op the second time. -/
theorem invite_pipeline_idempotent_witness :
    processMessage (processMessage [] demoOwner (some demoPartner) demoMsgOwner false)
        demoOwner (some demoPartner) demoMsgOwner false
      = processMessage [] demoOwner (some demoPartner) demoMsgOwner false :=
  (invite_pipeline_idempotent [] demoOwner (some demoPartner) demoMsgOwner
    ⟨fun r hr => absurd hr (List.not_mem_nil r), List.nodup_nil⟩).1

/-- Counterexample for C6: order independence fails when the two
messages carry asymmetric recipient headers.  With the partner's
message naming no recipients, owner-first processing ends with
`sharedUserIds = [partner]`, partner-first with `[owner, partner]` —
different sets. -/
theorem shared_merge_order_dependent_cex :
    (processMessage (processMessage [] demoOwner (some demoPartner) demoMsgOwner false)
        demoPartner (some demoOwner) demoMsgPartnerEmpty false).map (·.sharedUserIds)
      = [["partner-1"]] ∧
    (processMessage (processMessage [] demoPartner (some demoOwner) demoMsgPartnerEmpty false)
        demoOwner (some demoPartner) demoMsgOwner false).map (·.sharedUserIds)
      = [["owner-1", "partner-1"]] ∧
    ("owner-1" ∈ (["owner-1", "partner-1"] : List String)) ∧
    ("owner-1" ∉ (["partner-1"] : List String)) := by
  refine ⟨by decide, by decide, by decide, by decide⟩

theorem computeShared_of_mem {u pRec : UserRec} {recip : List String}
    (hmem : lowerString pRec.email ∈ recip) (hne : pRec.id ≠ u.id) :
    computeShared u (some pRec) recip = [pRec.id] := by
  unfold computeShared setDelete
  simp only [hmem, if_true]
  have h1 : setAdd [] pRec.id = [pRec.id] := by simp [setAdd]
  rw [h1]
  simp [List.filter_cons, hne]

/-- Processing a message from one user and then a shared-thread message
from the partner produces the single canonical row with both ids
merged, in merge order. -/
theorem pm_two_step (u1 u2 : UserRec) (m1 m2 : MessageCtx)
    (hid : u1.id ≠ u2.id)
    (hthread : m1.threadId = m2.threadId)
    (hmid : m1.messageId ≠ m2.messageId)
    (ht1 : jsTrim m1.emailText ≠ "")
    (hc1 : ¬(m1.extraction.invite_id = "" ∨ m1.extraction.title = "" ∨
      m1.extraction.summary = ""))
    (ht2 : jsTrim m2.emailText ≠ "")
    (hc2 : ¬(m2.extraction.invite_id = "" ∨ m2.extraction.title = "" ∨
      m2.extraction.summary = ""))
    (hr1 : lowerString u2.email ∈ m1.recipients)
    (hr2 : lowerString u1.email ∈ m2.recipients) :
    processMessage (processMessage [] u1 (some u2) m1 false) u2 (some u1) m2 false
      = [{ newInviteRow [] u1 (some u2) m1 with sharedUserIds := [u2.id, u1.id] }] := by
  have hstep1 : processMessage [] u1 (some u2) m1 false
      = [] ++ [newInviteRow [] u1 (some u2) m1] :=
    pm_insert_eq ht1 hc1 rfl rfl
  rw [hstep1, List.nil_append]
  have hrs : (newInviteRow [] u1 (some u2) m1).sharedUserIds = [u2.id] :=
    computeShared_of_mem hr1 (Ne.symm hid)
  have hmid2 : findByMessageId [newInviteRow [] u1 (some u2) m1] m2.messageId = none := by
    have hb : (m1.messageId == m2.messageId) = false := beq_eq_false_iff_ne.mpr hmid
    simp [findByMessageId, List.find?_cons, newInviteRow, hb]
  have hthr2 : findByThreadId [newInviteRow [] u1 (some u2) m1] m2.threadId
      = some (newInviteRow [] u1 (some u2) m1) := by
    have hb : (m1.threadId == m2.threadId) = true := beq_iff_eq.mpr hthread
    show List.find? (fun r => r.gmailThreadId == m2.threadId)
        [newInviteRow [] u1 (some u2) m1] = some (newInviteRow [] u1 (some u2) m1)
    rw [List.find?_cons]
    have hpb : ((newInviteRow [] u1 (some u2) m1).gmailThreadId == m2.threadId) = true := hb
    rw [hpb]
  rw [pm_merge_eq ht2 hc2 hmid2 hthr2]
  have hshared2 : computeShared u2 (some u1) m2.recipients = [u1.id] :=
    computeShared_of_mem hr2 hid
  have hmerged : mergeSharedSet (newInviteRow [] u1 (some u2) m1) u2.id [u1.id]
      = [u2.id, u1.id] := by
    unfold mergeSharedSet
    have hru : (newInviteRow [] u1 (some u2) m1).userId = u1.id := rfl
    rw [hru, hrs]
    rw [if_pos (by simp [hid])]
    rw [setFromList_eq_self (by simp)]
    rw [setAdd_eq_of_mem (by simp)]
    show setAdd [u2.id] u1.id = [u2.id, u1.id]
    have hne : u1.id ∉ ([u2.id] : List String) := by simp [hid]
    unfold setAdd
    rw [if_neg hne]
    rfl
  unfold mergeBranch
  rw [hshared2, hmerged, hrs]
  rw [if_pos (by simp)]
  unfold updateSharedByRowId
  simp

/-- Claim C6 (amended): shared-thread merging is additive — any stored
row's shared set only ever gains members under a processing step — and
processing the owner's and the partner's shared-thread messages in
either order yields the same final `sharedUserIds` set on the canonical
invite, provided each message's recipients include the other user (with
asymmetric recipients the final sets can differ, see the
counterexample); the update persists only when the merged set is
strictly larger than the stored one. -/
theorem shared_merge_order_independent_sym
    (uA uB : UserRec) (mA mB : MessageCtx)
    (hid : uA.id ≠ uB.id)
    (hthread : mA.threadId = mB.threadId)
    (hmid : mA.messageId ≠ mB.messageId)
    (htA : jsTrim mA.emailText ≠ "") (htB : jsTrim mB.emailText ≠ "")
    (hcA : ¬(mA.extraction.invite_id = "" ∨ mA.extraction.title = "" ∨
      mA.extraction.summary = ""))
    (hcB : ¬(mB.extraction.invite_id = "" ∨ mB.extraction.title = "" ∨
      mB.extraction.summary = ""))
    (hrA : lowerString uB.email ∈ mA.recipients)
    (hrB : lowerString uA.email ∈ mB.recipients) :
    (∃ rA rB,
      processMessage (processMessage [] uA (some uB) mA false) uB (some uA) mB false
        = [rA] ∧
      processMessage (processMessage [] uB (some uA) mB false) uA (some uB) mA false
        = [rB] ∧
      rA.sharedUserIds = [uB.id, uA.id] ∧
      rB.sharedUserIds = [uA.id, uB.id] ∧
      (∀ x, x ∈ rA.sharedUserIds ↔ x ∈ rB.sharedUserIds)) ∧
    (∀ (db : List InviteRow) (u : UserRec) (p : Option UserRec) (m : MessageCtx),
      WellFormedDb db →
      ∀ r ∈ db, ∃ r' ∈ processMessage db u p m false,
        r'.rowId = r.rowId ∧ ∀ x ∈ r.sharedUserIds, x ∈ r'.sharedUserIds) := by
  constructor
  · refine ⟨{ newInviteRow [] uA (some uB) mA with sharedUserIds := [uB.id, uA.id] },
      { newInviteRow [] uB (some uA) mB with sharedUserIds := [uA.id, uB.id] },
      pm_two_step uA uB mA mB hid hthread hmid htA hcA htB hcB hrA hrB,
      pm_two_step uB uA mB mA (Ne.symm hid) hthread.symm (Ne.symm hmid)
        htB hcB htA hcA hrB hrA,
      rfl, rfl, ?_⟩
    intro x
    simp only [List.mem_cons, List.not_mem_nil, or_false]
    tauto
  · intro db u p m hwf r hr
    obtain ⟨r', hm', hrow, hdisj⟩ := (processMessage_spec db u p m hwf).2 r hr
    refine ⟨r', hm', hrow, ?_⟩
    rcases hdisj with h | h
    · intro x hx; rw [h]; exact hx
    · exact h.2

/-- Witness for C6 (amended): the symmetric two-message scenario on the
demo fixtures, in both orders. -/
theorem shared_merge_order_independent_sym_witness :
    ∃ rA rB,
      processMessage (processMessage [] demoOwner (some demoPartner) demoMsgOwner false)
          demoPartner (some demoOwner) demoMsgPartner false = [rA] ∧
      processMessage (processMessage [] demoPartner (some demoOwner) demoMsgPartner false)
          demoOwner (some demoPartner) demoMsgOwner false = [rB] ∧
      rA.sharedUserIds = [demoPartner.id, demoOwner.id] ∧
      rB.sharedUserIds = [demoOwner.id, demoPartner.id] ∧
      (∀ x, x ∈ rA.sharedUserIds ↔ x ∈ rB.sharedUserIds) :=
  (shared_merge_order_independent_sym demoOwner demoPartner demoMsgOwner demoMsgPartner
    (by decide) (by decide) (by decide) (by decide) (by decide)
    (by decide) (by decide) (by decide) (by decide)).1

/-! ### Association list lemmas for the letter mapping -/

theorem alistFind_set_self :
    ∀ (m : List (String × String)) (k v : String),
      alistFind (alistSet m k v) k = some v := by
  intro m k v
  induction m with
  | nil => simp [alistSet, alistFind]
  | cons p rest ih =>
    obtain ⟨k', v'⟩ := p
    by_cases hb : (k' == k)
    · simp [alistSet, hb, alistFind]
    · simp only [alistSet, hb, Bool.false_eq_true, if_false]
      simp only [alistFind, List.find?_cons, hb]
      exact ih

theorem alistFind_set_ne :
    ∀ (m : List (String × String)) (k v k' : String), k' ≠ k →
      alistFind (alistSet m k v) k' = alistFind m k' := by
  intro m k v k' hne
  have hkb : (k == k') = false := beq_eq_false_iff_ne.mpr (Ne.symm hne)
  induction m with
  | nil => simp [alistSet, alistFind, List.find?_cons, hkb]
  | cons p rest ih =>
    obtain ⟨k0, v0⟩ := p
    by_cases hb : (k0 == k)
    · have hk0 : k0 = k := eq_of_beq hb
      subst hk0
      simp [alistSet, alistFind, List.find?_cons, hkb]
    · simp only [alistSet, hb, Bool.false_eq_true, if_false]
      by_cases hb' : (k0 == k')
      · simp [alistFind, List.find?_cons, hb']
      · simp only [alistFind, List.find?_cons, hb'] at ih ⊢
        exact ih

theorem alistFind_set_cases (m : List (String × String)) (k v k' : String) (w : String)
    (h : alistFind (alistSet m k v) k' = some w) :
    (k' = k ∧ w = v) ∨ (k' ≠ k ∧ alistFind m k' = some w) := by
  by_cases hk : k' = k
  · subst hk
    rw [alistFind_set_self] at h
    cases h
    exact Or.inl ⟨rfl, rfl⟩
  · rw [alistFind_set_ne m k v k' hk] at h
    exact Or.inr ⟨hk, h⟩

/-- The normalized stored mapping never binds a key to the empty
string (keys and values are trimmed and dropped when empty). -/
theorem normalizeStored_values_ne (stored : List (String × String)) :
    ∀ k v, alistFind (normalizeStored stored) k = some v → v ≠ "" := by
  have hgen : ∀ (l : List (String × String)) (acc : List (String × String)),
      (∀ k v, alistFind acc k = some v → v ≠ "") →
      ∀ k v, alistFind (l.foldl
        (fun acc kv =>
          if upperString (jsTrim kv.1) != "" && jsTrim kv.2 != "" then
            alistSet acc (upperString (jsTrim kv.1)) (jsTrim kv.2)
          else acc) acc) k = some v → v ≠ "" := by
    intro l
    induction l with
    | nil => intro acc hacc k v h; exact hacc k v h
    | cons kv rest ih =>
      intro acc hacc k v h
      rw [List.foldl_cons] at h
      refine ih _ ?_ k v h
      intro k2 v2 h2
      split at h2
      · rename_i hcond
        rcases alistFind_set_cases _ _ _ _ _ h2 with ⟨_, hv2⟩ | ⟨_, hfind⟩
        · subst hv2
          have := (Bool.and_eq_true _ _).mp hcond
          exact bne_iff_ne.mp this.2
        · exact hacc k2 v2 hfind
      · exact hacc k2 v2 h2
  intro k v h
  exact hgen stored [] (by intro k2 v2 h2; simp [alistFind] at h2) k v h

/-- `copyLeftover` never overwrites a binding that is already truthy. -/
theorem copyLeftover_preserves :
    ∀ (stored lm : List (String × String)) (k v : String),
      alistFind lm k = some v → v ≠ "" →
      alistFind (copyLeftover lm stored) k = some v := by
  intro stored
  induction stored with
  | nil => intro lm k v h _; exact h
  | cons kv rest ih =>
    intro lm k v h hv
    show alistFind ((kv :: rest).foldl
      (fun acc kv => if jsTruthy (alistFind acc kv.1) then acc else alistSet acc kv.1 kv.2)
      lm) k = some v
    rw [List.foldl_cons]
    by_cases hk : kv.1 = k
    · rw [hk, h]
      have : jsTruthy (some v) = true := by simp [jsTruthy, hv]
      rw [this]
      exact ih lm k v h hv
    · split
      · exact ih lm k v h hv
      · exact ih _ k v (by rw [alistFind_set_ne lm kv.1 kv.2 k (fun hh => hk hh.symm)]; exact h) hv

theorem letterKeyOf_length (i : Nat) : (letterKeyOf i).length = 1 := by
  simp [letterKeyOf, upperString, letterOf, String.length]

theorem letterKeyOf_ne_empty (i : Nat) : letterKeyOf i ≠ "" := by
  intro h
  have h1 := letterKeyOf_length i
  rw [h] at h1
  simp [String.length] at h1

theorem letterKey_ne_inviteKey (i j : Nat) : letterKeyOf i ≠ inviteKeyOf j := by
  intro h
  have h1 := letterKeyOf_length i
  have h2 : (inviteKeyOf j).length = 7 + (letterKeyOf j).length := by
    show ("INVITE " ++ letterKeyOf j).length = 7 + (letterKeyOf j).length
    rw [String.length_append]
    have h7 : ("INVITE " : String).length = 7 := by decide
    rw [h7]
  rw [h, h2, letterKeyOf_length] at h1
  omega

theorem letterKey_inj_lt : ∀ i, i < 26 → ∀ j, j < 26 → i ≠ j →
    letterKeyOf i ≠ letterKeyOf j := by decide

/-- Keys other than the two written at each position pass through
`reconstructItems` unchanged. -/
theorem reconstructItems_find_frame (stored : List (String × String)) :
    ∀ (list : List DigestItem) (idx : Nat) (lines : List String)
      (lm : List (String × String)) (k : String),
      (∀ j, j < list.length → k ≠ letterKeyOf (idx + j) ∧ k ≠ inviteKeyOf (idx + j)) →
      alistFind (reconstructItems stored list idx lines lm).2 k = alistFind lm k := by
  intro list
  induction list with
  | nil => intro idx lines lm k _; rfl
  | cons item rest ih =>
    intro idx lines lm k hk
    have h0 := hk 0 (by simp)
    rw [Nat.add_zero] at h0
    have hrest : ∀ j, j < rest.length →
        k ≠ letterKeyOf (idx + 1 + j) ∧ k ≠ inviteKeyOf (idx + 1 + j) := by
      intro j hj
      have heq : idx + 1 + j = idx + (j + 1) := by omega
      rw [heq]
      exact hk (j + 1) (by simpa using Nat.succ_lt_succ hj)
    cases item with
    | obj rawId summ json =>
      show alistFind (reconstructItems stored rest (idx + 1) _ _).2 k = alistFind lm k
      rw [ih (idx + 1) _ _ k hrest]
      rw [alistFind_set_ne _ _ _ _ h0.2, alistFind_set_ne _ _ _ _ h0.1]
    | prim s =>
      show alistFind (reconstructItems stored rest (idx + 1) _ _).2 k = alistFind lm k
      rw [ih (idx + 1) _ _ k hrest]
      rw [alistFind_set_ne _ _ _ _ h0.2, alistFind_set_ne _ _ _ _ h0.1]

/-- The letter key of position `idx + i` is bound to the invite id the
item at `i` determines, for sessions of at most 26 letters. -/
theorem reconstructItems_find_at (stored : List (String × String)) :
    ∀ (list : List DigestItem) (idx : Nat) (lines : List String)
      (lm : List (String × String)) (i : Nat) (h : i < list.length),
      idx + list.length ≤ 26 →
      alistFind (reconstructItems stored list idx lines lm).2 (letterKeyOf (idx + i))
        = some (itemValueAt stored (idx + i) (list.get ⟨i, h⟩)) := by
  intro list
  induction list with
  | nil => intro idx lines lm i h; simp at h
  | cons item rest ih =>
    intro idx lines lm i h hle
    cases i with
    | zero =>
      rw [Nat.add_zero]
      have hfr : ∀ j, j < rest.length →
          letterKeyOf idx ≠ letterKeyOf (idx + 1 + j) ∧
            letterKeyOf idx ≠ inviteKeyOf (idx + 1 + j) := by
        intro j hj
        constructor
        · apply letterKey_inj_lt idx (by simp at hle; omega) (idx + 1 + j)
            (by simp at hle; omega) (by omega)
        · exact letterKey_ne_inviteKey idx (idx + 1 + j)
      cases item with
      | obj rawId summ json =>
        show alistFind (reconstructItems stored rest (idx + 1) _ _).2 (letterKeyOf idx)
          = some (itemValueAt stored idx (DigestItem.obj rawId summ json))
        rw [reconstructItems_find_frame stored rest (idx + 1) _ _ _ hfr]
        rw [alistFind_set_ne _ _ _ _ (letterKey_ne_inviteKey idx idx)]
        rw [alistFind_set_self]
        rfl
      | prim s =>
        show alistFind (reconstructItems stored rest (idx + 1) _ _).2 (letterKeyOf idx)
          = some (itemValueAt stored idx (DigestItem.prim s))
        rw [reconstructItems_find_frame stored rest (idx + 1) _ _ _ hfr]
        rw [alistFind_set_ne _ _ _ _ (letterKey_ne_inviteKey idx idx)]
        rw [alistFind_set_self]
        rfl
    | succ i' =>
      have h' : i' < rest.length := by simpa using Nat.lt_of_succ_lt_succ h
      have heq : idx + (i' + 1) = (idx + 1) + i' := by omega
      rw [heq]
      have hle' : (idx + 1) + rest.length ≤ 26 := by simp at hle; omega
      cases item with
      | obj rawId summ json =>
        show alistFind (reconstructItems stored rest (idx + 1) _ _).2
            (letterKeyOf ((idx + 1) + i'))
          = some (itemValueAt stored ((idx + 1) + i')
              ((DigestItem.obj rawId summ json :: rest).get ⟨i' + 1, h⟩))
        rw [ih (idx + 1) _ _ i' h' hle']
        rfl
      | prim s =>
        show alistFind (reconstructItems stored rest (idx + 1) _ _).2
            (letterKeyOf ((idx + 1) + i'))
          = some (itemValueAt stored ((idx + 1) + i')
              ((DigestItem.prim s :: rest).get ⟨i' + 1, h⟩))
        rw [ih (idx + 1) _ _ i' h' hle']
        rfl

theorem itemValueAt_ne_empty (stored : List (String × String)) (pos : Nat)
    (item : DigestItem)
    (hst : ∀ k v, alistFind stored k = some v → v ≠ "") :
    itemValueAt stored pos item ≠ "" := by
  cases item with
  | obj rawId summ json =>
    simp only [itemValueAt]
    split
    · rename_i hcond; exact bne_iff_ne.mp hcond
    · split
      · rename_i hcond; exact bne_iff_ne.mp hcond
      · exact letterKeyOf_ne_empty pos
  | prim s =>
    simp only [itemValueAt]
    rcases hf : alistFind stored (letterKeyOf pos) with _ | v
    · rcases hg : alistFind stored (inviteKeyOf pos) with _ | w
      · simp [hf, hg, Option.none_or]
        exact letterKeyOf_ne_empty pos
      · simp [hf, hg, Option.none_or]
        exact hst _ w hg
    · simp [hf, Option.or_some]
      exact hst _ v hf

theorem itemValueAt_of_stored (stored : List (String × String)) (pos : Nat)
    (item : DigestItem) (v : String)
    (hown : itemOwnId item = "")
    (hfind : alistFind stored (letterKeyOf pos) = some v) (hv : v ≠ "") :
    itemValueAt stored pos item = v := by
  cases item with
  | obj rawId summ json =>
    have hown' : jsTrim (rawId.getD "") = "" := hown
    simp only [itemValueAt]
    rw [hown', hfind]
    simp [Option.or_some, hv]
  | prim s =>
    simp only [itemValueAt]
    rw [hfind]
    simp [Option.or_some]

/-- Claim C9: `reconstructDigestContext` is deterministic — equal
inputs give an identical mapping and identical derived text; letters
are assigned by item position (each position's letter key is bound, to
a non-empty id); and a previously stored partial mapping overrides the
derived letter defaults for the keys it defines whenever the item does
not carry its own invite id. -/
theorem reconstruct_digest_deterministic (items : Option (List DigestItem))
    (stored : List (String × String)) :
    (∀ items2 stored2, items = items2 → stored = stored2 →
      reconstructDigestContext items stored = reconstructDigestContext items2 stored2) ∧
    (∀ list, items = some list → list.length ≤ 26 →
      ∀ i, i < list.length →
      ∃ v, alistFind (reconstructDigestContext items stored).letterToInviteId (letterKeyOf i)
          = some v ∧ v ≠ "") ∧
    (∀ list, items = some list → list.length ≤ 26 →
      ∀ i (h : i < list.length) (v : String),
        itemOwnId (list.get ⟨i, h⟩) = "" →
        alistFind (normalizeStored stored) (letterKeyOf i) = some v →
        alistFind (reconstructDigestContext items stored).letterToInviteId (letterKeyOf i)
          = some v) := by
  refine ⟨?_, ?_, ?_⟩
  · intro items2 stored2 h1 h2
    subst h1; subst h2
    rfl
  · intro list hit hlen i h
    subst hit
    have hat := reconstructItems_find_at (normalizeStored stored) list 0 [] [] i h
      (by simpa using hlen)
    rw [Nat.zero_add] at hat
    have hvne : itemValueAt (normalizeStored stored) i (list.get ⟨i, h⟩) ≠ "" :=
      itemValueAt_ne_empty _ i _ (normalizeStored_values_ne stored)
    refine ⟨itemValueAt (normalizeStored stored) i (list.get ⟨i, h⟩), ?_, hvne⟩
    show alistFind (copyLeftover (reconstructItems (normalizeStored stored) list 0 [] []).2
        (normalizeStored stored)) (letterKeyOf i) = _
    exact copyLeftover_preserves _ _ _ _ hat hvne
  · intro list hit hlen i h v hown hfind
    subst hit
    have hat := reconstructItems_find_at (normalizeStored stored) list 0 [] [] i h
      (by simpa using hlen)
    rw [Nat.zero_add] at hat
    have hv : v ≠ "" := normalizeStored_values_ne stored _ v hfind
    rw [itemValueAt_of_stored _ i _ v hown hfind hv] at hat
    show alistFind (copyLeftover (reconstructItems (normalizeStored stored) list 0 [] []).2
        (normalizeStored stored)) (letterKeyOf i) = some v
    exact copyLeftover_preserves _ _ _ _ hat hv

/-- Witness for C9: an item without its own invite id takes the stored
mapping's value for its letter. -/
theorem reconstruct_digest_deterministic_witness :
    alistFind (reconstructDigestContext
        (some [DigestItem.obj none (some "Alpha summary") "j1"])
        [("A", "INVITE-123")]).letterToInviteId (letterKeyOf 0) = some "INVITE-123" :=
  (reconstruct_digest_deterministic
      (some [DigestItem.obj none (some "Alpha summary") "j1"]) [("A", "INVITE-123")]).2.2
    [DigestItem.obj none (some "Alpha summary") "j1"] rfl (by decide) 0 (by decide)
    "INVITE-123" (by decide) (by decide)

end Mindspire
